import Mathlib

deriving instance DecidableEq for Except

/-!
Shallow embedding of the koreore lexer (src/main.rs and src/cursor.rs).

The Rust iterator of positioned characters is modelled as a Lean list; the
mutable cursor threading of the Rust code becomes explicit state passing: an
operation that consumes characters takes the current list and returns the
rest. Rust panics (unwrap, unimplemented) are modelled as values of an error
type, since a panic aborts the scan; machine integers (u32) are modelled as
Nat with the explicit bound 2 ^ 32 at the places the Rust code checks it
(checked parsing), and as plain Nat where the Rust code does unchecked
counting.
-/

namespace Koreore

/-- The Rust struct Char of main.rs: one source character with its 1-indexed
line number and 1-indexed column number. Named SrcChar here because Char is
taken by the Lean character type. -/
structure SrcChar where
  line_num : Nat
  row_num : Nat
  c : Char
deriving DecidableEq, Repr

/-- The chars_iter function of main.rs (the cursor function of cursor.rs has
the identical body): the source lines, as split by the standard line reader,
are enumerated; each line is expanded to its characters followed by one
appended line feed, with 1-indexed line and column numbers. -/
def charsIter (lines : List String) : List SrcChar :=
  lines.enum.flatMap fun p =>
    (p.2.data ++ ['\n']).enum.map fun q =>
      { line_num := p.1 + 1, row_num := q.1 + 1, c := q.2 }

/-- The ReservedKind enum of main.rs. The Rust names Type, Enum, Logic get a
K suffix because Type is a Lean keyword. -/
inductive ReservedKind where
  | typeK
  | enumK
  | logicK
deriving DecidableEq, Repr

/-- The detect_reserved function of main.rs: exact match against the three
keywords. -/
def detect_reserved (word : String) : Option ReservedKind :=
  if word = "type" then some ReservedKind.typeK
  else if word = "enum" then some ReservedKind.enumK
  else if word = "logic" then some ReservedKind.logicK
  else none

/-- The TokenKind enum of main.rs. -/
inductive TokenKind where
  | Comment
  | Whitespace
  | Ident (text : String)
  | Reserved (kind : ReservedKind)
  | Number (value : Nat)
  | Literal (bitwidth : Nat) (value : Nat)
  | Semi
  | Comma
  | Dot
  | OpenParen
  | CloseParen
  | OpenBrace
  | CloseBrace
  | OpenBracket
  | CloseBracket
  | At
  | Pound
  | Tilde
  | Question
  | Colon
  | Dollar
  | Eq
  | Bang
  | Lt
  | Gt
  | Minus
  | And
  | Or
  | Plus
  | Star
  | Slash
  | Caret
  | Percent
deriving DecidableEq, Repr

/-- The Token struct of main.rs. -/
structure Token where
  line_num : Nat
  row_num : Nat
  token_kind : TokenKind
deriving DecidableEq, Repr

/-- The panic and early-return failure points of the scanner in main.rs.
Each constructor stands for one concrete abort site; a Rust panic carries no
line or column information from the scanner. -/
inductive ScanError where
  | numberOverflow
  | unsupportedLiteralBit
  | literalUnwrap
  | unrecognizedChar
deriving DecidableEq, Repr

/-- Peekable::next_if of the Rust standard library, specialised to the
character cursor: consume the next element exactly when the predicate holds
on it, otherwise leave the cursor untouched. -/
def nextIf (cur : List SrcChar) (p : SrcChar → Bool) : Option SrcChar × List SrcChar :=
  match cur with
  | [] => (none, [])
  | ch :: rest => if p ch then (some ch, rest) else (none, ch :: rest)

/-- The free function consume of main.rs. It returns Option Bool: on a
mismatch (or exhaustion) next_if yields None and the question-mark operator
makes consume itself return None; on a match it returns some true. -/
def consume (cur : List SrcChar) (c : Char) : Option Bool × List SrcChar :=
  match nextIf cur (fun ch => ch.c == c) with
  | (none, cur') => (none, cur')
  | (some ch, cur') => (some (ch.c == c), cur')

/-- Cursor::consume of cursor.rs: next_if followed by is_some, a plain Bool. -/
def Cursor.consume (cur : List SrcChar) (c : Char) : Bool × List SrcChar :=
  match nextIf cur (fun ch => ch.c == c) with
  | (none, cur') => (false, cur')
  | (some _, cur') => (true, cur')

/-- The skip function of main.rs with a pure predicate: peek the next
character and consume it while the predicate holds of it; stop without
consuming at the first failing character or at exhaustion. The scanner call
sites whose Rust closures mutate captured state are modelled below as their
own recursive functions (scanWord, scanDigits, scanBits). -/
def skip (p : Char → Bool) : List SrcChar → List SrcChar
  | [] => []
  | ch :: rest => if p ch.c then skip p rest else ch :: rest

/-- The skip call of the identifier arm of scan in main.rs: while the next
character is ASCII alphanumeric or an underscore, push it onto the word and
consume it. Returns the accumulated word and the remaining cursor. -/
def scanWord : List SrcChar → String → String × List SrcChar
  | [], word => (word, [])
  | ch :: rest, word =>
    if ch.c.isAlphanum || ch.c == '_' then scanWord rest (word.push ch.c)
    else (word, ch :: rest)

/-- The skip call of the number arm of scan in main.rs: while the next
character is an ASCII digit, push it onto the digit string and consume it. -/
def scanDigits : List SrcChar → String → String × List SrcChar
  | [], digits => (digits, [])
  | ch :: rest, digits =>
    if ch.c.isDigit then scanDigits rest (digits.push ch.c)
    else (digits, ch :: rest)

/-- The skip call of the bit-literal arm of scan in main.rs: an underscore
pushes a 0 bit, an at sign pushes a 1 bit (each also bumps bitwidth), a
question mark hits the unimplemented panic, a double quote returns true from
the predicate (so it is consumed and the run continues), and any other
character stops the run unconsumed. -/
def scanBits : List SrcChar → String → Nat → Except ScanError (String × Nat × List SrcChar)
  | [], bits, bitwidth => Except.ok (bits, bitwidth, [])
  | ch :: rest, bits, bitwidth =>
    match ch.c with
    | '_' => scanBits rest (bits.push '0') (bitwidth + 1)
    | '@' => scanBits rest (bits.push '1') (bitwidth + 1)
    | '?' => Except.error ScanError.unsupportedLiteralBit
    | '"' => scanBits rest bits bitwidth
    | _ => Except.ok (bits, bitwidth, ch :: rest)

/-- The checked accumulation loop of u32 decimal parsing in the Rust
standard library: one digit at a time, failing as soon as the accumulator
would leave the unsigned 32-bit range. -/
def parseU32Aux : List Char → Nat → Option Nat
  | [], acc => some acc
  | c :: rest, acc =>
    if c.isDigit then
      let acc' := acc * 10 + (c.toNat - 48)
      if acc' < 2 ^ 32 then parseU32Aux rest acc' else none
    else none

/-- str::parse::<u32> as used by the number arm of scan: an empty string or
an overflow is an error. (The plus-sign prefix accepted by the Rust parser
is omitted: the scanner only ever passes maximal ASCII digit runs.) -/
def parseU32 (s : String) : Option Nat :=
  if s.data.isEmpty then none else parseU32Aux s.data 0

/-- The checked accumulation loop of u32::from_str_radix with radix 2: one
binary digit at a time, failing as soon as the accumulator leaves the
unsigned 32-bit range. -/
def fromStrRadix2Aux : List Char → Nat → Option Nat
  | [], acc => some acc
  | c :: rest, acc =>
    if c == '0' || c == '1' then
      let acc' := acc * 2 + (if c == '1' then 1 else 0)
      if acc' < 2 ^ 32 then fromStrRadix2Aux rest acc' else none
    else none

/-- u32::from_str_radix(bits, 2) as used by the literal arm of scan: the
empty string is an error (Rust IntErrorKind::Empty), a non-binary digit is
an error, and overflow of the 32-bit range is an error. -/
def fromStrRadix2 (s : String) : Option Nat :=
  if s.data.isEmpty then none else fromStrRadix2Aux s.data 0

/-- The whitespace arm guard of scan in main.rs: tab, line feed, carriage
return or space. -/
def isWhitespaceChar (c : Char) : Bool :=
  c == '\t' || c == '\n' || c == '\r' || c == ' '

/-- The 26 one-character punctuator arms of the scan match in main.rs,
tabulated (the slash is not here: it has its own arm with the comment
lookahead). -/
def punctKind (c : Char) : Option TokenKind :=
  if c = ';' then some TokenKind.Semi
  else if c = ',' then some TokenKind.Comma
  else if c = '.' then some TokenKind.Dot
  else if c = '(' then some TokenKind.OpenParen
  else if c = ')' then some TokenKind.CloseParen
  else if c = '{' then some TokenKind.OpenBrace
  else if c = '}' then some TokenKind.CloseBrace
  else if c = '[' then some TokenKind.OpenBracket
  else if c = ']' then some TokenKind.CloseBracket
  else if c = '@' then some TokenKind.At
  else if c = '#' then some TokenKind.Pound
  else if c = '~' then some TokenKind.Tilde
  else if c = '?' then some TokenKind.Question
  else if c = ':' then some TokenKind.Colon
  else if c = '$' then some TokenKind.Dollar
  else if c = '=' then some TokenKind.Eq
  else if c = '!' then some TokenKind.Bang
  else if c = '<' then some TokenKind.Lt
  else if c = '>' then some TokenKind.Gt
  else if c = '-' then some TokenKind.Minus
  else if c = '&' then some TokenKind.And
  else if c = '|' then some TokenKind.Or
  else if c = '+' then some TokenKind.Plus
  else if c = '*' then some TokenKind.Star
  else if c = '^' then some TokenKind.Caret
  else if c = '%' then some TokenKind.Percent
  else none

/-- The scan function of main.rs. It pulls one character; exhaustion yields
ok none (the Rust None, end of input). The result pairs the optional token
with the remaining cursor, making the Rust in-place mutation explicit. Note
the slash arm: consume returns Option Bool and scan applies the
question-mark operator to it, so a failed consume makes scan itself return
None - that is modelled verbatim, including the then-unreachable Slash
branch. Panics are the error cases. -/
def scan (cur : List SrcChar) : Except ScanError (Option Token × List SrcChar) :=
  match cur with
  | [] => Except.ok (none, [])
  | ch :: rest =>
    if isWhitespaceChar ch.c then
      Except.ok (some ⟨ch.line_num, ch.row_num, TokenKind.Whitespace⟩,
        skip isWhitespaceChar rest)
    else match punctKind ch.c with
    | some k => Except.ok (some ⟨ch.line_num, ch.row_num, k⟩, rest)
    | none =>
      if ch.c = '/' then
        match consume rest '/' with
        | (none, rest') => Except.ok (none, rest')
        | (some b, rest') =>
          if b then
            Except.ok (some ⟨ch.line_num, ch.row_num, TokenKind.Comment⟩,
              skip (fun c => !(c == '\n')) rest')
          else
            Except.ok (some ⟨ch.line_num, ch.row_num, TokenKind.Slash⟩, rest')
      else if ch.c.isAlpha then
        let wr := scanWord rest (String.singleton ch.c)
        match detect_reserved wr.1 with
        | some k => Except.ok (some ⟨ch.line_num, ch.row_num, TokenKind.Reserved k⟩, wr.2)
        | none => Except.ok (some ⟨ch.line_num, ch.row_num, TokenKind.Ident wr.1⟩, wr.2)
      else if ch.c.isDigit then
        let dr := scanDigits rest (String.singleton ch.c)
        match parseU32 dr.1 with
        | none => Except.error ScanError.numberOverflow
        | some v => Except.ok (some ⟨ch.line_num, ch.row_num, TokenKind.Number v⟩, dr.2)
      else if ch.c = '"' then
        match scanBits rest "" 0 with
        | Except.error e => Except.error e
        | Except.ok (bits, bitwidth, rest') =>
          match fromStrRadix2 bits with
          | none => Except.error ScanError.literalUnwrap
          | some v =>
            Except.ok (some ⟨ch.line_num, ch.row_num, TokenKind.Literal bitwidth v⟩, rest')
      else Except.error ScanError.unrecognizedChar

/-- The driver loop of tokenize in main.rs (while let Some(token) = scan),
with explicit fuel: none means the fuel ran out before the loop finished.
The termination theorem below shows fuel length + 1 always suffices. -/
def scanAllFuel : Nat → List SrcChar → Option (Except ScanError (List Token))
  | 0, _ => none
  | fuel + 1, cur =>
    match scan cur with
    | Except.error e => some (Except.error e)
    | Except.ok (none, _) => some (Except.ok [])
    | Except.ok (some t, cur') =>
      match scanAllFuel fuel cur' with
      | none => none
      | some (Except.error e) => some (Except.error e)
      | some (Except.ok ts) => some (Except.ok (t :: ts))

/-- The full token stream of a cursor, with the always-sufficient fuel. -/
def tokenize (cur : List SrcChar) : Except ScanError (List Token) :=
  (scanAllFuel (cur.length + 1) cur).getD (Except.ok [])

/-- A bit string read as an unsigned binary integer, most significant bit
first; the reference value of the specification for literal values. -/
def bitsVal (l : List Char) : Nat :=
  l.foldl (fun acc c => acc * 2 + (if c == '1' then 1 else 0)) 0

/-- Modelled from the spec (section 4.1, line expansion): one line's
characters enumerated with 1-indexed columns starting at 1, then exactly one
synthetic terminator character at column line length + 1. For comparison
with the charsIter definition taken from the source. -/
def expandLineSpec (n : Nat) (s : String) : List SrcChar :=
  (s.data.enum.map fun q => { line_num := n, row_num := q.1 + 1, c := q.2 }) ++
    [{ line_num := n, row_num := s.length + 1, c := '\n' }]

/-- Modelled from the spec (section 4.1): lines concatenated in order, each
restarting column numbering at 1 while the line number increments from 1. -/
def charsIterSpec (lines : List String) : List SrcChar :=
  lines.enum.flatMap fun p => expandLineSpec (p.1 + 1) p.2

/-! Helper lemmas shared by the claim theorems. -/

/-- skip never lengthens the cursor. -/
theorem skip_length_le (p : Char → Bool) (l : List SrcChar) : (skip p l).length ≤ l.length := by
  induction l with
  | nil => simp [skip]
  | cons ch rest ih =>
    simp only [skip]
    split
    · exact Nat.le_succ_of_le ih
    · exact Nat.le_refl _

/-- skip stops at the first character failing the predicate: it is dropWhile. -/
theorem skip_eq_dropWhile (p : Char → Bool) (l : List SrcChar) :
    skip p l = l.dropWhile fun ch => p ch.c := by
  induction l with
  | nil => rfl
  | cons ch rest ih =>
    simp only [skip, List.dropWhile]
    by_cases h : p ch.c <;> simp [h, ih]

/-- The word accumulation loop never lengthens the cursor. -/
theorem scanWord_snd_length_le (l : List SrcChar) : ∀ w, ((scanWord l w).2).length ≤ l.length := by
  induction l with
  | nil => intro w; simp [scanWord]
  | cons ch rest ih =>
    intro w
    simp only [scanWord]
    split
    · exact Nat.le_succ_of_le (ih _)
    · exact Nat.le_refl _

/-- The digit accumulation loop never lengthens the cursor. -/
theorem scanDigits_snd_length_le (l : List SrcChar) :
    ∀ d, ((scanDigits l d).2).length ≤ l.length := by
  induction l with
  | nil => intro d; simp [scanDigits]
  | cons ch rest ih =>
    intro d
    simp only [scanDigits]
    split
    · exact Nat.le_succ_of_le (ih _)
    · exact Nat.le_refl _

/-- The bit accumulation loop never lengthens the cursor. -/
theorem scanBits_ok_length_le : ∀ (l : List SrcChar) (b : String) (n : Nat) (bits : String)
    (bw : Nat) (rest' : List SrcChar),
    scanBits l b n = Except.ok (bits, bw, rest') → rest'.length ≤ l.length := by
  intro l
  induction l with
  | nil =>
    intro b n bits bw rest' h
    simp only [scanBits, Except.ok.injEq, Prod.mk.injEq] at h
    rw [← h.2.2]
  | cons ch rest ih =>
    intro b n bits bw rest' h
    simp only [scanBits] at h
    split at h
    · exact Nat.le_succ_of_le (ih _ _ _ _ _ h)
    · exact Nat.le_succ_of_le (ih _ _ _ _ _ h)
    · exact absurd h (by simp)
    · exact Nat.le_succ_of_le (ih _ _ _ _ _ h)
    · simp only [Except.ok.injEq, Prod.mk.injEq] at h
      rw [← h.2.2]

/-- consume never lengthens the cursor. -/
theorem consume_snd_length_le (cur : List SrcChar) (c : Char) :
    (consume cur c).2.length ≤ cur.length := by
  cases cur with
  | nil => simp [consume, nextIf]
  | cons ch rest =>
    by_cases h : (ch.c == c) = true
    · simp [consume, nextIf, h]
    · simp [consume, nextIf, h]

/-- A scan call that produces a token consumes at least one character. -/
theorem scan_ok_some_length : ∀ {cur : List SrcChar} {t : Token} {cur' : List SrcChar},
    scan cur = Except.ok (some t, cur') → cur'.length < cur.length := by
  intro cur t cur' h
  match cur with
  | [] => simp [scan] at h
  | ch :: rest =>
    simp only [scan, List.length_cons] at h ⊢
    by_cases hws : isWhitespaceChar ch.c = true
    · rw [if_pos hws] at h
      simp only [Except.ok.injEq, Prod.mk.injEq, Option.some.injEq] at h
      rw [← h.2]
      exact Nat.lt_succ_of_le (skip_length_le _ _)
    · rw [if_neg hws] at h
      cases hpk : punctKind ch.c with
      | some k =>
        rw [hpk] at h
        simp only [Except.ok.injEq, Prod.mk.injEq, Option.some.injEq] at h
        rw [← h.2]
        exact Nat.lt_succ_self _
      | none =>
        rw [hpk] at h
        try simp only at h
        by_cases hsl : ch.c = '/'
        · rw [if_pos hsl] at h
          rcases hcon : consume rest '/' with ⟨ob, restc⟩
          rw [hcon] at h
          have hlen : restc.length ≤ rest.length := by
            have := consume_snd_length_le rest '/'
            rw [hcon] at this
            exact this
          cases ob with
          | none => simp at h
          | some b =>
            try simp only at h
            by_cases hb : b = true
            · rw [if_pos hb] at h
              simp only [Except.ok.injEq, Prod.mk.injEq, Option.some.injEq] at h
              rw [← h.2]
              have := skip_length_le (fun c => !(c == '\n')) restc
              omega
            · rw [if_neg hb] at h
              simp only [Except.ok.injEq, Prod.mk.injEq, Option.some.injEq] at h
              rw [← h.2]
              omega
        · rw [if_neg hsl] at h
          by_cases hal : ch.c.isAlpha = true
          · rw [if_pos hal] at h
            try simp only at h
            cases hdr : detect_reserved (scanWord rest (String.singleton ch.c)).1 with
            | some k =>
              rw [hdr] at h
              simp only [Except.ok.injEq, Prod.mk.injEq, Option.some.injEq] at h
              rw [← h.2]
              exact Nat.lt_succ_of_le (scanWord_snd_length_le _ _)
            | none =>
              rw [hdr] at h
              simp only [Except.ok.injEq, Prod.mk.injEq, Option.some.injEq] at h
              rw [← h.2]
              exact Nat.lt_succ_of_le (scanWord_snd_length_le _ _)
          · rw [if_neg hal] at h
            by_cases hdg : ch.c.isDigit = true
            · rw [if_pos hdg] at h
              try simp only at h
              cases hp : parseU32 (scanDigits rest (String.singleton ch.c)).1 with
              | none => rw [hp] at h; simp at h
              | some v =>
                rw [hp] at h
                simp only [Except.ok.injEq, Prod.mk.injEq, Option.some.injEq] at h
                rw [← h.2]
                exact Nat.lt_succ_of_le (scanDigits_snd_length_le _ _)
            · rw [if_neg hdg] at h
              by_cases hq : ch.c = '"'
              · rw [if_pos hq] at h
                cases hsb : scanBits rest "" 0 with
                | error e => rw [hsb] at h; simp at h
                | ok val =>
                  obtain ⟨bits, bw, restb⟩ := val
                  rw [hsb] at h
                  try simp only at h
                  cases hfr : fromStrRadix2 bits with
                  | none => rw [hfr] at h; simp at h
                  | some v =>
                    rw [hfr] at h
                    simp only [Except.ok.injEq, Prod.mk.injEq, Option.some.injEq] at h
                    rw [← h.2]
                    exact Nat.lt_succ_of_le (scanBits_ok_length_le _ _ _ _ _ _ hsb)
              · rw [if_neg hq] at h
                simp at h

/-- Fuel one more than the cursor length always lets the driver loop finish. -/
theorem scanAllFuel_isSome : ∀ (n : Nat) (cur : List SrcChar), cur.length ≤ n →
    (scanAllFuel (n + 1) cur).isSome = true := by
  intro n
  induction n with
  | zero =>
    intro cur hc
    have hnil : cur = [] := List.length_eq_zero.mp (Nat.le_zero.mp hc)
    subst hnil
    rfl
  | succ n ih =>
    intro cur hc
    cases hs : scan cur with
    | error e => simp [scanAllFuel, hs]
    | ok val =>
      obtain ⟨ot, cur'⟩ := val
      cases ot with
      | none => simp [scanAllFuel, hs]
      | some t =>
        have hlt := scan_ok_some_length hs
        have hrec := ih cur' (by omega)
        rw [Option.isSome_iff_exists] at hrec
        obtain ⟨r, hr⟩ := hrec
        simp only [scanAllFuel, hs]
        simp only [scanAllFuel] at hr
        rw [hr]
        cases r <;> rfl

/-- Enumeration of a list with one appended element. -/
theorem enumFrom_append_singleton : ∀ (l : List Char) (c : Char) (n : Nat),
    List.enumFrom n (l ++ [c]) = List.enumFrom n l ++ [(n + l.length, c)] := by
  intro l
  induction l with
  | nil => intro c n; simp [List.enumFrom]
  | cons a as ih =>
    intro c n
    have harith : n + 1 + as.length = n + (as.length + 1) := by omega
    show (n, a) :: List.enumFrom (n + 1) (as ++ [c]) =
      ((n, a) :: List.enumFrom (n + 1) as) ++ [(n + (as.length + 1), c)]
    rw [ih, List.cons_append, harith]

/-- The line expansion of the source equals the line expansion described by
the spec: per line, the characters at 1-indexed columns followed by exactly
one synthetic terminator at column line length + 1. -/
theorem charsIter_eq_spec (lines : List String) : charsIter lines = charsIterSpec lines := by
  unfold charsIter charsIterSpec
  apply List.flatMap_congr
  intro p hp
  unfold expandLineSpec
  rw [List.enum, enumFrom_append_singleton, List.map_append]
  simp only [List.map_cons, List.map_nil, Nat.zero_add]
  rfl

/-- Every expanded character carries strictly 1-indexed line and column. -/
theorem charsIter_one_indexed (lines : List String) (ch : SrcChar) (h : ch ∈ charsIter lines) :
    1 ≤ ch.line_num ∧ 1 ≤ ch.row_num := by
  unfold charsIter at h
  rw [List.mem_flatMap] at h
  obtain ⟨p, hp, hch⟩ := h
  rw [List.mem_map] at hch
  obtain ⟨q, hq, rfl⟩ := hch
  exact ⟨Nat.le_add_left 1 p.1, Nat.le_add_left 1 q.1⟩

/-- The bit accumulation loop bumps bitwidth exactly once per accumulated bit
character, and the accumulated characters are all 0 or 1. -/
theorem scanBits_ok_inv : ∀ (l : List SrcChar) (b : String) (n : Nat) (bits : String)
    (bw : Nat) (rest' : List SrcChar),
    scanBits l b n = Except.ok (bits, bw, rest') →
    bw + b.length = n + bits.length ∧ ∀ c ∈ bits.data, c ∈ b.data ∨ c = '0' ∨ c = '1' := by
  intro l
  induction l with
  | nil =>
    intro b n bits bw rest' h
    simp only [scanBits, Except.ok.injEq, Prod.mk.injEq] at h
    obtain ⟨h1, h2, h3⟩ := h
    subst h1
    subst h2
    exact ⟨rfl, fun c hc => Or.inl hc⟩
  | cons ch rest ih =>
    intro b n bits bw rest' h
    simp only [scanBits] at h
    split at h
    · obtain ⟨h1, h2⟩ := ih _ _ _ _ _ h
      rw [String.length_push] at h1
      refine ⟨by omega, fun c hc => ?_⟩
      rcases h2 c hc with hmem | h01
      · rw [String.data_push] at hmem
        rcases List.mem_append.mp hmem with hm | hm
        · exact Or.inl hm
        · simp at hm
          exact Or.inr (Or.inl hm)
      · exact Or.inr h01
    · obtain ⟨h1, h2⟩ := ih _ _ _ _ _ h
      rw [String.length_push] at h1
      refine ⟨by omega, fun c hc => ?_⟩
      rcases h2 c hc with hmem | h01
      · rw [String.data_push] at hmem
        rcases List.mem_append.mp hmem with hm | hm
        · exact Or.inl hm
        · simp at hm
          exact Or.inr (Or.inr hm)
      · exact Or.inr h01
    · exact absurd h (by simp)
    · exact ih _ _ _ _ _ h
    · simp only [Except.ok.injEq, Prod.mk.injEq] at h
      obtain ⟨h1, h2, h3⟩ := h
      subst h1
      subst h2
      exact ⟨rfl, fun c hc => Or.inl hc⟩

/-- The binary accumulation is monotone in the accumulator. -/
theorem foldl_bits_ge : ∀ (l : List Char) (acc : Nat),
    acc ≤ l.foldl (fun a c => a * 2 + (if c == '1' then 1 else 0)) acc := by
  intro l
  induction l with
  | nil => intro acc; exact Nat.le_refl _
  | cons c rest ih =>
    intro acc
    refine Nat.le_trans ?_ (ih (acc * 2 + (if c == '1' then 1 else 0)))
    generalize (if c == '1' then (1 : Nat) else 0) = d
    omega

/-- The checked binary accumulation loop, on 0 and 1 digits, succeeds exactly
when the full value is below the unsigned 32-bit bound. -/
theorem fromStrRadix2Aux_eq : ∀ (l : List Char) (acc : Nat),
    (∀ c ∈ l, c = '0' ∨ c = '1') → acc < 2 ^ 32 →
    fromStrRadix2Aux l acc =
      if l.foldl (fun a c => a * 2 + (if c == '1' then 1 else 0)) acc < 2 ^ 32 then
        some (l.foldl (fun a c => a * 2 + (if c == '1' then 1 else 0)) acc)
      else none := by
  intro l
  induction l with
  | nil =>
    intro acc h hacc
    simp only [fromStrRadix2Aux, List.foldl_nil]
    rw [if_pos hacc]
  | cons c rest ih =>
    intro acc h hacc
    have hc : c = '0' ∨ c = '1' := h c (by simp)
    have hcb : (c == '0' || c == '1') = true := by
      rcases hc with rfl | rfl <;> decide
    simp only [fromStrRadix2Aux, hcb, if_true, List.foldl_cons]
    by_cases h2 : acc * 2 + (if c == '1' then 1 else 0) < 2 ^ 32
    · rw [if_pos h2, ih _ (fun d hd => h d (List.mem_cons_of_mem _ hd)) h2]
    · rw [if_neg h2]
      have hge := foldl_bits_ge rest (acc * 2 + (if c == '1' then 1 else 0))
      rw [if_neg (by omega)]

/-- Bit-literal value construction characterised: it fails on the empty bit
string and on overflow of the unsigned 32-bit range, and otherwise yields the
binary value of the bit string. -/
theorem fromStrRadix2_characterization (s : String) (hb : ∀ c ∈ s.data, c = '0' ∨ c = '1') :
    fromStrRadix2 s =
      if s.data = [] then none
      else if bitsVal s.data < 2 ^ 32 then some (bitsVal s.data) else none := by
  unfold fromStrRadix2 bitsVal
  have key := fromStrRadix2Aux_eq s.data 0 hb (by norm_num)
  by_cases he : s.data.isEmpty
  · rw [if_pos he, if_pos (List.isEmpty_iff.mp he)]
  · rw [if_neg he, if_neg (fun hh => he (by simp [hh])), key]

/-- A character unequal to every given character cannot be that character. -/
theorem ne_char_of_isAlpha {c : Char} (h : c.isAlpha = true) (p : Char)
    (hp : p.isAlpha = false) : c ≠ p := by
  intro e
  rw [e, hp] at h
  exact Bool.noConfusion h

/-- An ASCII alphabetic character is not in the scanner whitespace set. -/
theorem isWhitespaceChar_eq_false_of_isAlpha {c : Char} (h : c.isAlpha = true) :
    isWhitespaceChar c = false := by
  unfold isWhitespaceChar
  have h1 := ne_char_of_isAlpha h '\t' (by decide)
  have h2 := ne_char_of_isAlpha h '\n' (by decide)
  have h3 := ne_char_of_isAlpha h '\r' (by decide)
  have h4 := ne_char_of_isAlpha h ' ' (by decide)
  simp [h1, h2, h3, h4]

/-- An ASCII alphabetic character matches no one-character punctuator arm. -/
theorem punctKind_eq_none_of_isAlpha {c : Char} (h : c.isAlpha = true) :
    punctKind c = none := by
  unfold punctKind
  rw [if_neg (ne_char_of_isAlpha h ';' (by decide)), if_neg (ne_char_of_isAlpha h ',' (by decide)),
    if_neg (ne_char_of_isAlpha h '.' (by decide)), if_neg (ne_char_of_isAlpha h '(' (by decide)),
    if_neg (ne_char_of_isAlpha h ')' (by decide)), if_neg (ne_char_of_isAlpha h '{' (by decide)),
    if_neg (ne_char_of_isAlpha h '}' (by decide)), if_neg (ne_char_of_isAlpha h '[' (by decide)),
    if_neg (ne_char_of_isAlpha h ']' (by decide)), if_neg (ne_char_of_isAlpha h '@' (by decide)),
    if_neg (ne_char_of_isAlpha h '#' (by decide)), if_neg (ne_char_of_isAlpha h '~' (by decide)),
    if_neg (ne_char_of_isAlpha h '?' (by decide)), if_neg (ne_char_of_isAlpha h ':' (by decide)),
    if_neg (ne_char_of_isAlpha h '$' (by decide)), if_neg (ne_char_of_isAlpha h '=' (by decide)),
    if_neg (ne_char_of_isAlpha h '!' (by decide)), if_neg (ne_char_of_isAlpha h '<' (by decide)),
    if_neg (ne_char_of_isAlpha h '>' (by decide)), if_neg (ne_char_of_isAlpha h '-' (by decide)),
    if_neg (ne_char_of_isAlpha h '&' (by decide)), if_neg (ne_char_of_isAlpha h '|' (by decide)),
    if_neg (ne_char_of_isAlpha h '+' (by decide)), if_neg (ne_char_of_isAlpha h '*' (by decide)),
    if_neg (ne_char_of_isAlpha h '^' (by decide)), if_neg (ne_char_of_isAlpha h '%' (by decide))]

/-! The claim theorems. -/

/-- Claim C1: the claim states that a scan whose leading character is a slash
not followed by a second slash emits a Slash token at that position. The code
does the opposite: the free consume returns None on the mismatch, the
question-mark operator propagates that None out of scan, and scan therefore
signals end-of-input after having consumed the slash; the Slash arm is
unreachable. This theorem evaluates the code at the failing inputs: a slash
followed by a non-slash character, a slash at the very end of the cursor, and
the whole driver run, which ends with no tokens at all. -/
theorem C1_slash_never_emitted :
    scan (charsIter ["/a"]) = Except.ok (none, [⟨1, 2, 'a'⟩, ⟨1, 3, '\n'⟩]) ∧
    scan [⟨1, 1, '/'⟩] = Except.ok (none, []) ∧
    tokenize (charsIter ["/a"]) = Except.ok [] := by
  refine ⟨by decide, by decide, by decide⟩

/-- Claim C2: the claim states that the first double quote inside a bit
literal body stops the consumption run, so nothing after it is accumulated.
In the code the predicate returns true on the quote, so skip consumes it and
keeps running: on the input consisting of a two-bit literal followed by one
more underscore, the underscore after the closing quote is still accumulated,
yielding bitwidth 3 and value 2 instead of bitwidth 2 and value 1, and the
whole run consumes through column 5. -/
theorem C2_quote_does_not_stop :
    scan (charsIter ["\"_@\"_"]) =
      Except.ok (some ⟨1, 1, TokenKind.Literal 3 2⟩, [⟨1, 6, '\n'⟩]) ∧
    tokenize (charsIter ["\"_@\"_"]) =
      Except.ok [⟨1, 1, TokenKind.Literal 3 2⟩, ⟨1, 6, TokenKind.Whitespace⟩] := by
  refine ⟨by decide, by decide⟩

/-- Claim C3, counterexample: the claim states that building the Literal token
never fails, in particular on an immediately closed literal with zero bit
characters. On that very input the scan fails: from_str_radix on the empty
bit string returns an error and the unwrap panics. -/
theorem C3_counterexample :
    scan (charsIter ["\"\""]) = Except.error ScanError.literalUnwrap := by decide

/-- Claim C3, amended: bit-literal construction from already-filtered 0 and 1
characters is not total; it succeeds exactly when the bit string is nonempty
and its binary value fits the unsigned 32-bit range, in which case the value
is the binary reading of the bit string. -/
theorem C3_amended (s : String) (hb : ∀ c ∈ s.data, c = '0' ∨ c = '1') :
    ((fromStrRadix2 s).isSome = true ↔ s.data ≠ [] ∧ bitsVal s.data < 2 ^ 32) ∧
    ∀ v, fromStrRadix2 s = some v → v = bitsVal s.data := by
  rw [fromStrRadix2_characterization s hb]
  by_cases he : s.data = []
  · simp [he]
  · by_cases hv : bitsVal s.data < 2 ^ 32
    · rw [if_neg he, if_pos hv]
      exact ⟨⟨fun _ => ⟨he, hv⟩, fun _ => rfl⟩,
        fun v hveq => (Option.some.inj hveq).symm⟩
    · rw [if_neg he, if_neg hv]
      exact ⟨⟨fun hh => Bool.noConfusion hh, fun hh => absurd hh.2 hv⟩,
        fun v hveq => Option.noConfusion hveq⟩

/-- Claim C3, witness for the amended theorem at the bit string 01. -/
theorem C3_witness :
    ((fromStrRadix2 "01").isSome = true ↔
      ("01" : String).data ≠ [] ∧ bitsVal ("01" : String).data < 2 ^ 32) ∧
    ∀ v, fromStrRadix2 "01" = some v → v = bitsVal ("01" : String).data :=
  C3_amended "01" (by decide)

/-- Claim C4: the claim states that a decimal digit run exceeding the
unsigned 32-bit range makes the scan fail with NumberOverflow reported
together with the failing position, rather than crashing the process. The
code instead calls unwrap on the failed parse, which panics and aborts the
whole process carrying no line or column (the ScanError value here models
exactly that panic, and by construction holds no position); a digit run that
fits is indeed emitted as a Number token with the parsed value. -/
theorem C4_overflow_aborts :
    scan (charsIter ["9999999999"]) = Except.error ScanError.numberOverflow ∧
    scan (charsIter ["1234"]) =
      Except.ok (some ⟨1, 1, TokenKind.Number 1234⟩, [⟨1, 5, '\n'⟩]) := by
  refine ⟨by decide, by decide⟩

/-- Claim C5: the claim states that consume leaves the cursor unchanged and
returns false on a mismatch or at exhaustion, and consumes one character and
returns true on a match. Cursor::consume of cursor.rs behaves exactly so, but
the free consume of main.rs, the one scan actually calls, returns None
instead of false on a mismatch (the cursor is still left unchanged) and some
true on a match; that None is what scan then propagates as a spurious
end-of-input. This theorem records both behaviours on every cursor state. -/
theorem C5_consume (ch : SrcChar) (rest : List SrcChar) (x : Char) :
    (ch.c ≠ x → consume (ch :: rest) x = (none, ch :: rest) ∧
      Cursor.consume (ch :: rest) x = (false, ch :: rest)) ∧
    (ch.c = x → consume (ch :: rest) x = (some true, rest) ∧
      Cursor.consume (ch :: rest) x = (true, rest)) ∧
    consume ([] : List SrcChar) x = (none, []) ∧
    Cursor.consume ([] : List SrcChar) x = (false, []) := by
  refine ⟨fun hne => ?_, fun heq => ?_, rfl, rfl⟩
  · have hb : (ch.c == x) = false := by
      rw [beq_eq_false_iff_ne]
      exact hne
    exact ⟨by simp [consume, nextIf, hb], by simp [Cursor.consume, nextIf, hb]⟩
  · have hb : (ch.c == x) = true := by
      rw [beq_iff_eq]
      exact heq
    exact ⟨by simp [consume, nextIf, hb], by simp [Cursor.consume, nextIf, hb]⟩

/-- Claim C5, witness: the two consume implementations evaluated at a
mismatching and at a matching head character. -/
theorem C5_witness :
    (consume [⟨1, 1, 'a'⟩] '/' = (none, [⟨1, 1, 'a'⟩]) ∧
      Cursor.consume [⟨1, 1, 'a'⟩] '/' = (false, [⟨1, 1, 'a'⟩])) ∧
    (consume [⟨1, 1, '/'⟩] '/' = (some true, []) ∧
      Cursor.consume [⟨1, 1, '/'⟩] '/' = (true, [])) :=
  ⟨(C5_consume ⟨1, 1, 'a'⟩ [] '/').1 (by decide),
    (C5_consume ⟨1, 1, '/'⟩ [] '/').2.1 rfl⟩

/-- Claim C6: on a double-quote lead, whenever the bit accumulation run and
the binary conversion succeed, the scan emits a Literal token positioned at
the opening quote whose bitwidth is the count of accumulated bit characters
and whose value is the accumulated bit string read as an unsigned binary
integer most significant bit first; concretely, the quoted four-character
body underscore, at, underscore, at yields bitwidth 4 and value 5. -/
theorem C6_literal (ch : SrcChar) (rest : List SrcChar) (bits : String) (bw : Nat)
    (rest' : List SrcChar) (v : Nat) (hc : ch.c = '"')
    (hs : scanBits rest "" 0 = Except.ok (bits, bw, rest'))
    (hv : fromStrRadix2 bits = some v) :
    scan (ch :: rest) =
      Except.ok (some ⟨ch.line_num, ch.row_num, TokenKind.Literal bw v⟩, rest') ∧
    bw = bits.length ∧ v = bitsVal bits.data ∧
    scan (charsIter ["\"_@_@\""]) =
      Except.ok (some ⟨1, 1, TokenKind.Literal 4 5⟩, [⟨1, 7, '\n'⟩]) := by
  obtain ⟨hbw, h01⟩ := scanBits_ok_inv rest "" 0 bits bw rest' hs
  have h01' : ∀ c ∈ bits.data, c = '0' ∨ c = '1' := by
    intro c hcm
    rcases h01 c hcm with hmem | h'
    · exact absurd hmem (by simp)
    · exact h'
  refine ⟨?_, ?_, ?_, by decide⟩
  · have hch : ch = ⟨ch.line_num, ch.row_num, '"'⟩ := by
      obtain ⟨ln, rn, c⟩ := ch
      show SrcChar.mk ln rn c = SrcChar.mk ln rn '"'
      rw [show c = '"' from hc]
    rw [hch]
    simp [scan, hs, hv, show isWhitespaceChar '"' = false from rfl,
      show punctKind '"' = none from rfl]
  · have h0 : ("" : String).length = 0 := rfl
    omega
  · rw [fromStrRadix2_characterization bits h01'] at hv
    by_cases he : bits.data = []
    · rw [if_pos he] at hv
      exact absurd hv (by simp)
    · rw [if_neg he] at hv
      by_cases hlt : bitsVal bits.data < 2 ^ 32
      · rw [if_pos hlt] at hv
        exact (Option.some.inj hv).symm
      · rw [if_neg hlt] at hv
        exact absurd hv (by simp)

/-- Claim C6, witness: the general literal theorem applied to the concrete
expanded input of the quoted body underscore, at, underscore, at. -/
theorem C6_witness :
    scan ((⟨1, 1, '"'⟩ : SrcChar) ::
        [⟨1, 2, '_'⟩, ⟨1, 3, '@'⟩, ⟨1, 4, '_'⟩, ⟨1, 5, '@'⟩, ⟨1, 6, '"'⟩, ⟨1, 7, '\n'⟩]) =
      Except.ok (some ⟨1, 1, TokenKind.Literal 4 5⟩, [⟨1, 7, '\n'⟩]) ∧
    (4 : Nat) = ("0101" : String).length ∧ (5 : Nat) = bitsVal ("0101" : String).data :=
  have h := C6_literal ⟨1, 1, '"'⟩
    [⟨1, 2, '_'⟩, ⟨1, 3, '@'⟩, ⟨1, 4, '_'⟩, ⟨1, 5, '@'⟩, ⟨1, 6, '"'⟩, ⟨1, 7, '\n'⟩]
    "0101" 4 [⟨1, 7, '\n'⟩] 5 rfl (by decide) (by decide)
  ⟨h.1, h.2.1, h.2.2.1⟩

/-- Claim C7: on an ASCII alphabetic lead the scan accumulates the maximal
run of alphanumerics or underscores; when the accumulated word is exactly one
of the three keywords it emits Reserved with the matching kind, otherwise it
emits Ident with the accumulated text, so the two kinds are mutually
exclusive; concretely the word type is Reserved and the word type2 is Ident. -/
theorem C7_keyword_precedence (ch : SrcChar) (rest : List SrcChar) (h : ch.c.isAlpha = true) :
    (∀ k, detect_reserved (scanWord rest (String.singleton ch.c)).1 = some k →
      scan (ch :: rest) = Except.ok
        (some ⟨ch.line_num, ch.row_num, TokenKind.Reserved k⟩,
          (scanWord rest (String.singleton ch.c)).2)) ∧
    (detect_reserved (scanWord rest (String.singleton ch.c)).1 = none →
      scan (ch :: rest) = Except.ok
        (some ⟨ch.line_num, ch.row_num, TokenKind.Ident (scanWord rest (String.singleton ch.c)).1⟩,
          (scanWord rest (String.singleton ch.c)).2)) ∧
    scan (charsIter ["type"]) =
      Except.ok (some ⟨1, 1, TokenKind.Reserved ReservedKind.typeK⟩, [⟨1, 5, '\n'⟩]) ∧
    scan (charsIter ["type2"]) =
      Except.ok (some ⟨1, 1, TokenKind.Ident "type2"⟩, [⟨1, 6, '\n'⟩]) := by
  have hws := isWhitespaceChar_eq_false_of_isAlpha h
  have hpk := punctKind_eq_none_of_isAlpha h
  have hsl := ne_char_of_isAlpha h '/' (by decide)
  refine ⟨fun k hd => ?_, fun hd => ?_, by decide, by decide⟩
  · simp [scan, hws, hpk, hsl, h, hd]
  · simp [scan, hws, hpk, hsl, h, hd]

/-- Claim C7, witness: the keyword theorem applied to the expanded input of
the word type. -/
theorem C7_witness :
    scan ((⟨1, 1, 't'⟩ : SrcChar) :: [⟨1, 2, 'y'⟩, ⟨1, 3, 'p'⟩, ⟨1, 4, 'e'⟩, ⟨1, 5, '\n'⟩]) =
      Except.ok (some ⟨1, 1, TokenKind.Reserved ReservedKind.typeK⟩, [⟨1, 5, '\n'⟩]) := by
  have h := C7_keyword_precedence ⟨1, 1, 't'⟩
    [⟨1, 2, 'y'⟩, ⟨1, 3, 'p'⟩, ⟨1, 4, 'e'⟩, ⟨1, 5, '\n'⟩] (by decide)
  rw [h.1 ReservedKind.typeK (by decide)]
  decide

/-- Claim C8: the expanded line containing a comment yields one Comment token
at line 1 column 1 with the terminating line feed left unconsumed, and the
immediately following scan call yields a Whitespace token at the position of
that terminator. -/
theorem C8_comment_then_ws :
    scan (charsIter ["// hello"]) =
      Except.ok (some ⟨1, 1, TokenKind.Comment⟩, [⟨1, 9, '\n'⟩]) ∧
    scan [⟨1, 9, '\n'⟩] = Except.ok (some ⟨1, 9, TokenKind.Whitespace⟩, []) ∧
    tokenize (charsIter ["// hello"]) =
      Except.ok [⟨1, 1, TokenKind.Comment⟩, ⟨1, 9, TokenKind.Whitespace⟩] := by
  refine ⟨by decide, by decide, by decide⟩

/-- Claim C9: the line expansion equals the form the spec describes, namely
per line its characters at 1-indexed columns starting at 1 followed by
exactly one synthetic terminator at column line length + 1, with column
numbering restarting and line numbers incrementing; every produced position
is strictly 1-indexed; and the two-line input ab, cd tokenizes to Ident ab at
line 1 column 1, Whitespace at line 1 column 3, Ident cd at line 2 column 1,
followed by the final synthetic terminator token. -/
theorem C9_line_expansion :
    (∀ lines : List String, charsIter lines = charsIterSpec lines) ∧
    (∀ (lines : List String) (ch : SrcChar), ch ∈ charsIter lines →
      1 ≤ ch.line_num ∧ 1 ≤ ch.row_num) ∧
    tokenize (charsIter ["ab", "cd"]) = Except.ok
      [⟨1, 1, TokenKind.Ident "ab"⟩, ⟨1, 3, TokenKind.Whitespace⟩,
        ⟨2, 1, TokenKind.Ident "cd"⟩, ⟨2, 3, TokenKind.Whitespace⟩] :=
  ⟨charsIter_eq_spec, charsIter_one_indexed, by decide⟩

/-- Claim C9, witness: the expansion facts at a one-line input. -/
theorem C9_witness :
    charsIter ["a"] = charsIterSpec ["a"] ∧
    (1 ≤ (⟨1, 1, 'a'⟩ : SrcChar).line_num ∧ 1 ≤ (⟨1, 1, 'a'⟩ : SrcChar).row_num) :=
  ⟨C9_line_expansion.1 ["a"], C9_line_expansion.2.1 ["a"] ⟨1, 1, 'a'⟩ (by decide)⟩

/-- Claim C10: every scan call that produces a token consumes at least one
character from the cursor; every accumulate-while loop stops at the first
non-matching character or at exhaustion, here stated for skip, which equals
dropWhile; consequently the driver loop finishes within cursor length plus
one iterations, producing a finite token stream. -/
theorem C10_termination :
    (∀ (cur : List SrcChar) (t : Token) (cur' : List SrcChar),
      scan cur = Except.ok (some t, cur') → cur'.length < cur.length) ∧
    (∀ (p : Char → Bool) (l : List SrcChar), skip p l = l.dropWhile fun ch => p ch.c) ∧
    (∀ cur : List SrcChar, (scanAllFuel (cur.length + 1) cur).isSome = true) :=
  ⟨fun _ _ _ h => scan_ok_some_length h,
    skip_eq_dropWhile,
    fun cur => scanAllFuel_isSome cur.length cur (Nat.le_refl _)⟩

/-- Claim C10, witness: the consumption bound and termination facts at a
concrete one-character input. -/
theorem C10_witness :
    ([⟨1, 2, '\n'⟩] : List SrcChar).length < (charsIter ["a"]).length ∧
    skip isWhitespaceChar [] = List.dropWhile (fun ch => isWhitespaceChar ch.c) [] ∧
    (scanAllFuel ((charsIter ["a"]).length + 1) (charsIter ["a"])).isSome = true :=
  ⟨C10_termination.1 (charsIter ["a"]) ⟨1, 1, TokenKind.Ident "a"⟩ [⟨1, 2, '\n'⟩] (by decide),
    C10_termination.2.1 isWhitespaceChar [],
    C10_termination.2.2 (charsIter ["a"])⟩

end Koreore
